import Mathlib

/-!
Verification of the optimization-notebook model builders of the blog
repository (`_notebooks/2022-03-05-Integer_Programming.ipynb` and
`_notebooks/2022-05-02-Constraint_Programming.ipynb`).

The notebooks build linear / constraint-programming models and hand them to
an external solver (OR-Tools).  We embed the model-building code shallowly:

* Python list indexing (including negative indices and `IndexError`) is
  `pyGet`, returning `Except String`.
* The `solve_army` functions are translated as functions from the input
  tables to an `MPModel` value (or an error, mirroring a raised
  `IndexError`), recording exactly the variables, constraints and objective
  the Python code registers with the solver, in order.
* The CP-SAT cells (scouts / rations) are translated to `CpSatModel` values
  plus explicit feasibility semantics.
* The printing branches after `solver.Solve()` are translated as functions
  from the solver status (and the values the solver would report) to an
  outcome value describing what the cell reports.
-/

set_option autoImplicit false

namespace Blog

/-- The fixed message of a Python `IndexError` on list subscripts. -/
def indexErrorMsg : String := "list index out of range"

/-- Python list subscript `l[i]`: negative indices count from the end and an
out-of-range index raises `IndexError`. -/
def pyGet {α : Type} (l : List α) (i : Int) : Except String α :=
  if h : 0 ≤ (if i < 0 then i + l.length else i) ∧
      (if i < 0 then i + l.length else i).toNat < l.length then
    .ok (l.get ⟨(if i < 0 then i + l.length else i).toNat, h.2⟩)
  else .error indexErrorMsg

/-- Sequencing of fallible Python expressions: evaluate `e`, propagate a
raised exception, otherwise continue with the value. -/
def exBind {α β : Type} (e : Except String α) (f : α → Except String β) :
    Except String β :=
  match e with
  | .error s => .error s
  | .ok a => f a

/-- Left-to-right evaluation of a Python comprehension whose body may raise:
the first exception aborts the whole comprehension. -/
def mapE {α β : Type} (f : α → Except String β) : List α → Except String (List β)
  | [] => .ok []
  | a :: as => exBind (f a) fun b => exBind (mapE f as) fun bs => .ok (b :: bs)

/-- Dot product of a coefficient list with a value list (extra entries on
either side are ignored, as in `sum(c[i] * x[i] ...)` over a common range). -/
def dot (cs xs : List Int) : Int :=
  (List.zipWith (· * ·) cs xs).sum

/-- Comparison direction of a linear constraint (`solver.Add(... <= b)` or
`solver.Add(... >= b)`). -/
inductive Rel : Type
  | le
  | ge
  deriving DecidableEq, Repr

/-- Satisfaction of a comparison. -/
def Rel.holds : Rel → Int → Int → Prop
  | .le, a, b => a ≤ b
  | .ge, a, b => b ≤ a

instance (r : Rel) (a b : Int) : Decidable (r.holds a b) := by
  cases r <;> simp [Rel.holds] <;> infer_instance

/-- One linear constraint registered with the MPSolver. -/
structure LinCons : Type where
  coeffs : List Int
  rel : Rel
  bound : Int
  deriving DecidableEq, Repr

/-- The data the `solve_army` functions register with the MPSolver:
variables (name, lower bound, optional upper bound — `none` is
`solver.infinity()`), constraints in insertion order, the objective
coefficients (aligned with the variables) and the direction
(`maximize = true` for `solver.Maximize`). -/
structure MPModel : Type where
  vars : List (String × Int × Option Int)
  cons : List LinCons
  objective : List Int
  maximize : Bool
  deriving DecidableEq, Repr

instance : Inhabited MPModel := ⟨⟨[], [], [], true⟩⟩

/-- A point `x` (one integer per variable, in order) is feasible for an
`MPModel` when it matches the variable list in length, respects every
variable's bounds, and satisfies every registered constraint. -/
def MPModel.Feasible (m : MPModel) (x : List Int) : Prop :=
  x.length = m.vars.length ∧
  (∀ p ∈ m.vars.zip x, p.1.2.1 ≤ p.2 ∧ ∀ ub ∈ p.1.2.2, p.2 ≤ ub) ∧
  (∀ c ∈ m.cons, c.rel.holds (dot c.coeffs x) c.bound)

/-- Objective value of a point. -/
def MPModel.objVal (m : MPModel) (x : List Int) : Int :=
  dot m.objective x

/-- `v` is the optimal objective value of `m`: attained by some feasible
point and no feasible point beats it in the model's direction. -/
def MPModel.IsOptimalValue (m : MPModel) (v : Int) : Prop :=
  (∃ x, m.Feasible x ∧ m.objVal x = v) ∧
  (∀ x, m.Feasible x → cond m.maximize (m.objVal x ≤ v) (v ≤ m.objVal x))

/-- `x` is an optimal point of `m`: feasible and unbeaten. -/
def MPModel.IsOptimalPoint (m : MPModel) (x : List Int) : Prop :=
  m.Feasible x ∧
  (∀ y, m.Feasible y → cond m.maximize (m.objVal y ≤ m.objVal x) (m.objVal x ≤ m.objVal y))

/-- The generic model builder of section II of the Integer Programming
notebook (`def solve_army(UNITS, DATA, RESOURCES)`, the model-building part
before `solver.Solve()`): one `IntVar(0, infinity, unit)` per unit, one
`Add(sum(DATA[u][r] * units[u]) <= RESOURCES[r])` per resource `r`, and
`Maximize(sum(DATA[u][-1] * units[u]))`.  A Python `IndexError` raised by a
subscript surfaces as `.error`. -/
def solve_army_build (UNITS : List String) (DATA : List (List Int))
    (RESOURCES : List Int) : Except String MPModel :=
  exBind (mapE (fun r =>
      exBind (mapE (fun u =>
          exBind (pyGet DATA u) fun row => pyGet row r)
        ((List.range UNITS.length).map (fun n : Nat => (n : Int)))) fun coeffs =>
      .ok ⟨coeffs, .le, RESOURCES.getD r.toNat 0⟩)
    ((List.range RESOURCES.length).map (fun n : Nat => (n : Int)))) fun cons =>
  exBind (mapE (fun u =>
      exBind (pyGet DATA u) fun row => pyGet row (-1))
    ((List.range UNITS.length).map (fun n : Nat => (n : Int)))) fun obj =>
  .ok { vars := UNITS.map (fun name => (name, 0, none)),
        cons := cons,
        objective := obj,
        maximize := true }

/-- The combined-constraints model builder of section III (the last
`def solve_army` of the Integer Programming notebook): same variables; the
loop `for r, _ in enumerate(RESOURCES)` adds the power constraint
`sum((10*DATA[u][-2] + DATA[u][-1]) * units[u]) >= 1000001` once per
resource; a second loop adds the capacity constraints
`sum(DATA[u][r] * units[u]) <= RESOURCES[r]`; the objective is
`Minimize(sum((DATA[u][0] + DATA[u][1] + DATA[u][2]) * units[u]))`. -/
def solve_army_build_combined (UNITS : List String) (DATA : List (List Int))
    (RESOURCES : List Int) : Except String MPModel :=
  exBind (mapE (fun _r =>
      exBind (mapE (fun u =>
          exBind (pyGet DATA u) fun row =>
          exBind (pyGet row (-2)) fun att =>
          exBind (pyGet row (-1)) fun hea =>
          .ok (10 * att + hea))
        ((List.range UNITS.length).map (fun n : Nat => (n : Int)))) fun coeffs =>
      .ok ⟨coeffs, .ge, 1000001⟩)
    ((List.range RESOURCES.length).map (fun n : Nat => (n : Int)))) fun powerCons =>
  exBind (mapE (fun r =>
      exBind (mapE (fun u =>
          exBind (pyGet DATA u) fun row => pyGet row r)
        ((List.range UNITS.length).map (fun n : Nat => (n : Int)))) fun coeffs =>
      .ok ⟨coeffs, .le, RESOURCES.getD r.toNat 0⟩)
    ((List.range RESOURCES.length).map (fun n : Nat => (n : Int)))) fun capCons =>
  exBind (mapE (fun u =>
      exBind (pyGet DATA u) fun row =>
      exBind (pyGet row 0) fun a =>
      exBind (pyGet row 1) fun b =>
      exBind (pyGet row 2) fun c =>
      .ok (a + b + c))
    ((List.range UNITS.length).map (fun n : Nat => (n : Int)))) fun obj =>
  .ok { vars := UNITS.map (fun name => (name, 0, none)),
        cons := powerCons ++ capCons,
        objective := obj,
        maximize := false }

/-- Comparison model for the refinement claim about the combined builder:
identical to `solve_army_build_combined` except that the power constraint is
added exactly once (not once per resource dimension) alongside the capacity
constraints. -/
def solve_army_build_once (UNITS : List String) (DATA : List (List Int))
    (RESOURCES : List Int) : Except String MPModel :=
  exBind (exBind (mapE (fun u =>
          exBind (pyGet DATA u) fun row =>
          exBind (pyGet row (-2)) fun att =>
          exBind (pyGet row (-1)) fun hea =>
          .ok (10 * att + hea))
        ((List.range UNITS.length).map (fun n : Nat => (n : Int)))) fun coeffs =>
      (.ok [LinCons.mk coeffs .ge 1000001] :
        Except String (List LinCons))) fun powerCons =>
  exBind (mapE (fun r =>
      exBind (mapE (fun u =>
          exBind (pyGet DATA u) fun row => pyGet row r)
        ((List.range UNITS.length).map (fun n : Nat => (n : Int)))) fun coeffs =>
      .ok ⟨coeffs, .le, RESOURCES.getD r.toNat 0⟩)
    ((List.range RESOURCES.length).map (fun n : Nat => (n : Int)))) fun capCons =>
  exBind (mapE (fun u =>
      exBind (pyGet DATA u) fun row =>
      exBind (pyGet row 0) fun a =>
      exBind (pyGet row 1) fun b =>
      exBind (pyGet row 2) fun c =>
      .ok (a + b + c))
    ((List.range UNITS.length).map (fun n : Nat => (n : Int)))) fun obj =>
  .ok { vars := UNITS.map (fun name => (name, 0, none)),
        cons := powerCons ++ capCons,
        objective := obj,
        maximize := false }

/-- The unit names of the first call to the generic `solve_army`. -/
def UNITS1 : List String := ["Swordsmen", "Bowmen", "Horsemen"]

/-- The coefficient table of the first call to the generic `solve_army`
(three resource columns and a trailing power column). -/
def DATA1 : List (List Int) :=
  [[60, 20, 0, 70],
   [80, 10, 40, 95],
   [140, 0, 100, 230]]

/-- The capacities of the first call to the generic `solve_army`. -/
def RESOURCES1 : List Int := [1200, 800, 600]

/-- The unit names of section III of the Integer Programming notebook. -/
def UNITS2 : List String :=
  ["Swordsmen", "Men-at-arms", "Bowmen", "Crossbowmen", "Handcannoneers",
   "Horsemen", "Knights", "Battering rams", "Springalds", "Mangonels"]

/-- The coefficient table of section III (food, wood, gold, attack,
health). -/
def DATA2 : List (List Int) :=
  [[60, 20, 0, 6, 70],
   [100, 0, 20, 12, 155],
   [30, 50, 0, 5, 70],
   [80, 0, 40, 12, 80],
   [120, 0, 120, 35, 150],
   [100, 20, 0, 9, 125],
   [140, 0, 100, 24, 230],
   [0, 300, 0, 200, 700],
   [0, 250, 250, 30, 200],
   [0, 400, 200, 12 * 3, 240]]

/-- The capacities of section III. -/
def RESOURCES2 : List Int := [183000, 90512, 80150]

/-- Solver return statuses of the MPSolver (`pywraplp.Solver`). -/
inductive MPStatus : Type
  | OPTIMAL
  | FEASIBLE
  | INFEASIBLE
  | UNBOUNDED
  | ABNORMAL
  | NOT_SOLVED
  deriving DecidableEq, Repr

/-- Solver return statuses of CP-SAT (`cp_model`). -/
inductive CpStatus : Type
  | UNKNOWN
  | MODEL_INVALID
  | FEASIBLE
  | INFEASIBLE
  | OPTIMAL
  deriving DecidableEq, Repr

/-- What a notebook cell reports after `solver.Solve()`.  The source cells
only ever produce `solved` (the success branch printing the objective value
and one name/value pair per variable) or `notSolved` (the failure branch
printing a fixed message); the `infeasible` and `unbounded` constructors
exist so that the spec's contract — a distinct `Infeasible` or `Unbounded`
outcome — can be stated and compared against the code. -/
inductive ArmyOutcome : Type
  | solved (objective : Int) (assignment : List (String × Int))
  | infeasible
  | unbounded
  | notSolved (message : String)
  deriving DecidableEq, Repr

/-- The reporting branch shared by every MPSolver optimization cell of the
Integer Programming notebook (`if status == pywraplp.Solver.OPTIMAL: ...
else: print('The solver could not find an optimal solution.')`), as a
function of the status and of the objective value and variable assignment
the solver would report. -/
def solve_army_report (status : MPStatus) (objective : Int)
    (assignment : List (String × Int)) : ArmyOutcome :=
  if status = MPStatus.OPTIMAL then .solved objective assignment
  else .notSolved "The solver could not find an optimal solution."

/-- A CP-SAT model as built by the Constraint Programming notebook cells:
`NewIntVar(lb, ub, name)` variables, `Add(... <= bound)` linear
constraints, and an optional `Maximize` objective. -/
structure CpSatModel : Type where
  vars : List (String × Int × Int)
  cons : List (List Int × Int)
  obj : Option (List Int)
  deriving DecidableEq, Repr

/-- Feasibility for a `CpSatModel`: the point matches the variables in
length, lies within every variable's bounds, and satisfies every
constraint. -/
def CpSatModel.Feasible (m : CpSatModel) (x : List Int) : Prop :=
  x.length = m.vars.length ∧
  (∀ p ∈ m.vars.zip x, p.1.2.1 ≤ p.2 ∧ p.2 ≤ p.1.2.2) ∧
  (∀ c ∈ m.cons, dot c.1 x ≤ c.2)

/-- Objective value of a point of a `CpSatModel` (0 when the model has no
objective). -/
def CpSatModel.objVal (m : CpSatModel) (x : List Int) : Int :=
  dot (m.obj.getD []) x

/-- `v` is the maximal objective value of a `CpSatModel` with a `Maximize`
objective. -/
def CpSatModel.IsMaxValue (m : CpSatModel) (v : Int) : Prop :=
  (∃ x, m.Feasible x ∧ m.objVal x = v) ∧ (∀ x, m.Feasible x → m.objVal x ≤ v)

/-- `x` is an optimal point of a `CpSatModel` with a `Maximize`
objective. -/
def CpSatModel.IsMaxPoint (m : CpSatModel) (x : List Int) : Prop :=
  m.Feasible x ∧ (∀ y, m.Feasible y → m.objVal y ≤ m.objVal x)

/-- The scouts model of the Constraint Programming notebook:
`army = model.NewIntVar(1, 10000, 'army')` and the three constraints
`model.AddModuloEquality(0, army, d)` for `d` in 13, 19, 37. -/
structure ModuloModel : Type where
  lo : Int
  hi : Int
  mods : List Int
  deriving DecidableEq, Repr

/-- `AddModuloEquality(0, var, d)` constrains `var % d = 0`; feasibility of
the one-variable congruence model. -/
def ModuloModel.Feasible (m : ModuloModel) (a : Int) : Prop :=
  m.lo ≤ a ∧ a ≤ m.hi ∧ ∀ d ∈ m.mods, a % d = 0

/-- The scouts model (bounds `[1, 10000]`, moduli 13, 19, 37). -/
def scoutModel : ModuloModel := ⟨1, 10000, [13, 19, 37]⟩

/-- The satisfiability reporting branch of the scouts cell
(`if status == cp_model.OPTIMAL or status == cp_model.FEASIBLE:` prints the
army value, else a failure message): `some` is the success branch carrying
the reported value. -/
def scout_report (status : CpStatus) (army : Int) : Option Int :=
  if status = CpStatus.OPTIMAL ∨ status = CpStatus.FEASIBLE then some army
  else none

/-- The ration model of the Constraint Programming notebook with the
`capacity` parameter left symbolic: `NewIntVar(0, capacity, name)` for
bread, meat and beer, the single constraint
`1*bread + 3*meat + 7*beer <= capacity`, and the objective
`Maximize(3*bread + 10*meat + 26*beer)`. -/
def rationModelCap (capacity : Int) : CpSatModel :=
  { vars := [("bread", 0, capacity), ("meat", 0, capacity), ("beer", 0, capacity)],
    cons := [([1, 3, 7], capacity)],
    obj := some [3, 10, 26] }

/-- The ration model as built in the notebook, with `capacity = 19`. -/
def rationModel : CpSatModel := rationModelCap 19

/-- The optimization reporting branch of the ration cell
(`if status == cp_model.OPTIMAL:` prints
`3*Value(bread) + 10*Value(meat) + 26*Value(beer)` and the three values,
else a failure message): `some` is the success branch carrying the
reported objective value and assignment. -/
def ration_report (status : CpStatus) (bread meat beer : Int) :
    Option (Int × Int × Int × Int) :=
  if status = CpStatus.OPTIMAL then
    some (3 * bread + 10 * meat + 26 * beer, bread, meat, beer)
  else none

/-- The solution-counting model of the Constraint Programming notebook
(same bounds and constraint as the ration model, capitalized names, no
objective). -/
def countModel : CpSatModel :=
  { vars := [("Bread", 0, 19), ("Meat", 0, 19), ("Beer", 0, 19)],
    cons := [([1, 3, 7], 19)],
    obj := none }

/-- Executable feasibility test for a `CpSatModel`. -/
def CpSatModel.feasibleB (m : CpSatModel) (x : List Int) : Bool :=
  (x.length == m.vars.length) &&
  (m.vars.zip x).all (fun p => decide (p.1.2.1 ≤ p.2) && decide (p.2 ≤ p.1.2.2)) &&
  m.cons.all (fun c => decide (dot c.1 x ≤ c.2))

/-- All integer points of a box given by per-coordinate bounds, in
lexicographic enumeration order. -/
def boxPoints : List (Int × Int) → List (List Int)
  | [] => [[]]
  | (lo, hi) :: rest =>
      ((List.range (hi - lo + 1).toNat).map (fun k : Nat => lo + (k : Int))).flatMap
        (fun v => (boxPoints rest).map (v :: ·))

/-- The solutions found by exhaustive enumeration over the variable boxes
(what CP-SAT's `enumerate_all_solutions` search visits, one callback call
per feasible point). -/
def CpSatModel.solutionList (m : CpSatModel) : List (List Int) :=
  (boxPoints (m.vars.map (fun v => (v.2.1, v.2.2)))).filter m.feasibleB

/-- The count reported by the `CountSolutions` callback cell. -/
def CpSatModel.solutionCount (m : CpSatModel) : Nat :=
  m.solutionList.length

/-! ### Lemmas about the embedding combinators -/

theorem exBind_ok {α β : Type} (a : α) (f : α → Except String β) :
    exBind (.ok a) f = f a := rfl

theorem exBind_error {α β : Type} (s : String) (f : α → Except String β) :
    exBind (.error s) f = .error s := rfl

theorem exBind_eq_ok {α β : Type} {e : Except String α} {f : α → Except String β}
    {b : β} (h : exBind e f = .ok b) : ∃ a, e = .ok a ∧ f a = .ok b := by
  cases e with
  | error s => exact absurd h (by simp [exBind])
  | ok a => exact ⟨a, rfl, h⟩

theorem mapE_ok_of_forall {α β : Type} (f : α → Except String β) (g : α → β) :
    ∀ l : List α, (∀ a ∈ l, f a = .ok (g a)) → mapE f l = .ok (l.map g)
  | [], _ => rfl
  | a :: as, h => by
      have ha : f a = .ok (g a) := h a (List.mem_cons_self a as)
      have hrec := mapE_ok_of_forall f g as fun b hb => h b (List.mem_cons_of_mem a hb)
      simp [mapE, ha, hrec, exBind]

theorem mapE_ok_mem {α β : Type} (f : α → Except String β) :
    ∀ {l : List α} {bs : List β}, mapE f l = .ok bs → ∀ a ∈ l, ∃ b, f a = .ok b := by
  intro l
  induction l with
  | nil => intro bs _ a ha; cases ha
  | cons a as ih =>
      intro bs h c hc
      rw [mapE] at h
      obtain ⟨b, hb, h2⟩ := exBind_eq_ok h
      obtain ⟨bs', hbs', _⟩ := exBind_eq_ok h2
      rcases List.mem_cons.mp hc with rfl | hmem
      · exact ⟨b, hb⟩
      · exact ih hbs' c hmem

/-- The evaluation of an embedded Python expression can only fail with an
`IndexError` message. -/
def OnlyIndexErr {α : Type} (e : Except String α) : Prop :=
  ∀ s, e = .error s → s = indexErrorMsg

theorem onlyIndexErr_ok {α : Type} (a : α) : OnlyIndexErr (.ok a) := by
  intro s h; cases h

theorem onlyIndexErr_pyGet {α : Type} (l : List α) (i : Int) :
    OnlyIndexErr (pyGet l i) := by
  intro s h
  unfold pyGet at h
  by_cases hc : 0 ≤ (if i < 0 then i + (l.length : Int) else i) ∧
      (if i < 0 then i + (l.length : Int) else i).toNat < l.length
  · rw [dif_pos hc] at h
    cases h
  · rw [dif_neg hc] at h
    injection h with h'
    exact h'.symm

theorem onlyIndexErr_exBind {α β : Type} {e : Except String α}
    {f : α → Except String β} (he : OnlyIndexErr e)
    (hf : ∀ a, OnlyIndexErr (f a)) : OnlyIndexErr (exBind e f) := by
  cases e with
  | error s => intro t ht; rw [exBind_error] at ht; cases ht; exact he s rfl
  | ok a => rw [exBind_ok]; exact hf a

theorem onlyIndexErr_mapE {α β : Type} {f : α → Except String β} :
    ∀ {l : List α}, (∀ a ∈ l, OnlyIndexErr (f a)) → OnlyIndexErr (mapE f l) := by
  intro l
  induction l with
  | nil => intro _ s h; cases h
  | cons a as ih =>
      intro h
      rw [mapE]
      refine onlyIndexErr_exBind (h a (List.mem_cons_self a as)) fun b => ?_
      refine onlyIndexErr_exBind (ih fun c hc => h c (List.mem_cons_of_mem a hc)) fun bs => ?_
      exact onlyIndexErr_ok _

theorem eq_indexErr_of_onlyIndexErr {α : Type} {e : Except String α}
    (h1 : OnlyIndexErr e) (h2 : ∀ a, e ≠ .ok a) : e = .error indexErrorMsg := by
  cases e with
  | error s => rw [h1 s rfl]
  | ok a => exact absurd rfl (h2 a)

/-! ### Lemmas about Python indexing -/

theorem pyGet_natCast {α : Type} (l : List α) (i : Nat) (d : α) (h : i < l.length) :
    pyGet l (i : Int) = .ok (l.getD i d) := by
  unfold pyGet
  have hneg : ¬ (((i : Nat) : Int) < 0) := by omega
  simp only [if_neg hneg]
  have hcond : (0 : Int) ≤ (i : Int) ∧ ((i : Nat) : Int).toNat < l.length := by omega
  rw [dif_pos hcond]
  rw [List.getD_eq_get l d h]
  refine congrArg _ (congrArg l.get (Fin.ext ?_))
  show ((i : Nat) : Int).toNat = i
  omega

theorem pyGet_natCast_err {α : Type} (l : List α) (i : Nat) (h : l.length ≤ i) :
    pyGet l (i : Int) = .error indexErrorMsg := by
  unfold pyGet
  have hneg : ¬ (((i : Nat) : Int) < 0) := by omega
  simp only [if_neg hneg]
  rw [dif_neg]
  intro hcond
  omega

theorem pyGet_neg_one {α : Type} (l : List α) (d : α) (h : l ≠ []) :
    pyGet l (-1) = .ok (l.getLastD d) := by
  have hl : 0 < l.length := List.length_pos.mpr h
  unfold pyGet
  have hneg : ((-1 : Int) < 0) := by omega
  simp only [if_pos hneg]
  have hcond : (0 : Int) ≤ -1 + l.length ∧ ((-1 : Int) + l.length).toNat < l.length := by
    omega
  rw [dif_pos hcond]
  rw [List.getLastD_eq_getLast?, List.getLast?_eq_getLast_of_ne_nil h, Option.getD_some,
    List.getLast_eq_get l h]
  refine congrArg _ (congrArg l.get (Fin.ext ?_))
  show ((-1 : Int) + l.length).toNat = l.length - 1
  omega

theorem pyGet_neg_two {α : Type} (l : List α) (d : α) (h : 2 ≤ l.length) :
    pyGet l (-2) = .ok (l.getD (l.length - 2) d) := by
  unfold pyGet
  have hneg : ((-2 : Int) < 0) := by omega
  simp only [if_pos hneg]
  have hcond : (0 : Int) ≤ -2 + l.length ∧ ((-2 : Int) + l.length).toNat < l.length := by
    omega
  rw [dif_pos hcond]
  rw [List.getD_eq_get l d (by omega : l.length - 2 < l.length)]
  refine congrArg _ (congrArg l.get (Fin.ext ?_))
  show ((-2 : Int) + l.length).toNat = l.length - 2
  omega

theorem range_map_getD {α β : Type} (d : α) (f : α → β) :
    ∀ l : List α, (List.range l.length).map (fun i => f (l.getD i d)) = l.map f
  | [] => rfl
  | a :: as => by
      rw [List.length_cons, List.range_succ_eq_map, List.map_cons, List.map_map, List.map_cons]
      refine congrArg₂ _ (by simp) ?_
      have : ((fun i => f ((a :: as).getD i d)) ∘ Nat.succ) = fun i => f (as.getD i d) := by
        funext i
        simp
      rw [this, range_map_getD d f as]

theorem getD_mem_of_lt {α : Type} (l : List α) (d : α) {i : Nat} (h : i < l.length) :
    l.getD i d ∈ l := by
  rw [List.getD_eq_get l d h]
  exact List.get_mem l i h

theorem mapE_range_cast {β : Type} (n : Nat) (f : Int → Except String β) (g : Nat → β)
    (h : ∀ u : Nat, u < n → f (u : Int) = .ok (g u)) :
    mapE f ((List.range n).map (fun k : Nat => (k : Int))) = .ok ((List.range n).map g) := by
  have hall : ∀ a ∈ (List.range n).map (fun k : Nat => (k : Int)),
      f a = .ok ((fun i : Int => g i.toNat) a) := by
    intro a ha
    rw [List.mem_map] at ha
    obtain ⟨u, hmem, rfl⟩ := ha
    rw [List.mem_range] at hmem
    exact h u hmem
  rw [mapE_ok_of_forall f (fun i => g i.toNat) _ hall]
  congr 1
  rw [List.map_map]
  refine List.map_eq_map_iff.mpr fun a ha => ?_
  rfl

/-! ### Characterization of the model builders on well-formed input -/

/-- What the generic `solve_army` registers with the solver, described
directly: for a table whose rows each have one column per capacity plus a
trailing value column, the model has one `[0, +infinity)` variable per unit
name, the `r`-th constraint is `sum(DATA[u][r] * units[u]) <= RESOURCES[r]`,
and the objective (maximized) takes each variable's coefficient from its
row's trailing column. -/
theorem solve_army_build_eq (U : List String) (D : List (List Int)) (R : List Int)
    (hd : D.length = U.length) (hrow : ∀ row ∈ D, R.length < row.length) :
    solve_army_build U D R = .ok
      { vars := U.map fun n => (n, 0, none),
        cons := (List.range R.length).map fun r =>
          ⟨D.map fun row => row.getD r 0, .le, R.getD r 0⟩,
        objective := D.map fun row => row.getLastD 0,
        maximize := true } := by
  have hrowD : ∀ u : Nat, u < D.length → R.length < (D.getD u []).length :=
    fun u hu => hrow _ (getD_mem_of_lt D [] hu)
  have hcons : mapE (fun r =>
      exBind (mapE (fun u => exBind (pyGet D u) fun row => pyGet row r)
        ((List.range U.length).map (fun n : Nat => (n : Int)))) fun coeffs =>
      .ok ⟨coeffs, .le, R.getD r.toNat 0⟩)
      ((List.range R.length).map (fun n : Nat => (n : Int)))
      = .ok ((List.range R.length).map fun r =>
          (⟨D.map fun row => row.getD r 0, .le, R.getD r 0⟩ : LinCons)) := by
    apply mapE_range_cast
    intro r hr
    have hinner : mapE (fun u => exBind (pyGet D u) fun row => pyGet row ((r : Nat) : Int))
        ((List.range U.length).map (fun n : Nat => (n : Int)))
        = .ok ((List.range U.length).map fun u => (D.getD u []).getD r 0) := by
      apply mapE_range_cast
      intro u hu
      have hu' : u < D.length := by omega
      rw [pyGet_natCast D u [] hu', exBind_ok]
      exact pyGet_natCast _ r 0 (by have := hrowD u hu'; omega)
    rw [hinner, exBind_ok]
    have htn : (((r : Nat) : Int)).toNat = r := rfl
    rw [htn]
    have hcoeffs : ((List.range U.length).map fun u => (D.getD u []).getD r 0)
        = D.map fun row => row.getD r 0 := by
      rw [← hd]
      exact range_map_getD [] (fun row => row.getD r 0) D
    rw [hcoeffs]
  have hobj : mapE (fun u => exBind (pyGet D u) fun row => pyGet row (-1))
      ((List.range U.length).map (fun n : Nat => (n : Int)))
      = .ok (D.map fun row => row.getLastD 0) := by
    have : mapE (fun u => exBind (pyGet D u) fun row => pyGet row (-1))
        ((List.range U.length).map (fun n : Nat => (n : Int)))
        = .ok ((List.range U.length).map fun u => (D.getD u []).getLastD 0) := by
      apply mapE_range_cast
      intro u hu
      have hu' : u < D.length := by omega
      rw [pyGet_natCast D u [] hu', exBind_ok]
      refine pyGet_neg_one _ 0 ?_
      have := hrowD u hu'
      intro hnil
      rw [hnil] at this
      simp only [List.length_nil] at this
      omega
    rw [this]
    congr 1
    rw [← hd]
    exact range_map_getD [] (fun row => row.getLastD 0) D
  unfold solve_army_build
  rw [hcons, exBind_ok, hobj, exBind_ok]

/-- The coefficients of the combined power constraint:
`10 * DATA[u][-2] + DATA[u][-1]` per unit row. -/
def powerCoeffs (D : List (List Int)) : List Int :=
  D.map fun row => 10 * row.getD (row.length - 2) 0 + row.getLastD 0

/-- The power constraint of section III:
`sum((10 * attack + health) * units[u]) >= 1000001`. -/
def powerLinCons (D : List (List Int)) : LinCons :=
  ⟨powerCoeffs D, .ge, 1000001⟩

/-- Shared sub-derivation for the two section III builders: the computation
of the power-constraint coefficients succeeds on rows of length at
least 2. -/
theorem power_mapE_eq (U : List String) (D : List (List Int))
    (hd : D.length = U.length) (hrow2 : ∀ row ∈ D, 2 ≤ row.length) :
    mapE (fun u =>
        exBind (pyGet D u) fun row =>
        exBind (pyGet row (-2)) fun att =>
        exBind (pyGet row (-1)) fun hea =>
        .ok (10 * att + hea))
      ((List.range U.length).map (fun n : Nat => (n : Int)))
      = .ok (powerCoeffs D) := by
  have hrowD : ∀ u : Nat, u < D.length → 2 ≤ (D.getD u []).length :=
    fun u hu => hrow2 _ (getD_mem_of_lt D [] hu)
  have : mapE (fun u =>
        exBind (pyGet D u) fun row =>
        exBind (pyGet row (-2)) fun att =>
        exBind (pyGet row (-1)) fun hea =>
        .ok (10 * att + hea))
      ((List.range U.length).map (fun n : Nat => (n : Int)))
      = .ok ((List.range U.length).map fun u =>
          10 * (D.getD u []).getD ((D.getD u []).length - 2) 0 + (D.getD u []).getLastD 0) := by
    apply mapE_range_cast
    intro u hu
    have hu' : u < D.length := by omega
    rw [pyGet_natCast D u [] hu', exBind_ok]
    rw [pyGet_neg_two _ 0 (hrowD u hu'), exBind_ok]
    rw [pyGet_neg_one _ 0 (by
      intro hnil
      have := hrowD u hu'
      rw [hnil] at this
      simp at this), exBind_ok]
  rw [this]
  congr 1
  rw [← hd]
  exact range_map_getD [] (fun row => 10 * row.getD (row.length - 2) 0 + row.getLastD 0) D

/-- Shared sub-derivation for the two section III builders: the capacity
constraints evaluate exactly as in the generic builder. -/
theorem cap_mapE_eq (U : List String) (D : List (List Int)) (R : List Int)
    (hd : D.length = U.length) (hrow : ∀ row ∈ D, R.length ≤ row.length) :
    mapE (fun r =>
      exBind (mapE (fun u => exBind (pyGet D u) fun row => pyGet row r)
        ((List.range U.length).map (fun n : Nat => (n : Int)))) fun coeffs =>
      .ok ⟨coeffs, .le, R.getD r.toNat 0⟩)
      ((List.range R.length).map (fun n : Nat => (n : Int)))
      = .ok ((List.range R.length).map fun r =>
          (⟨D.map fun row => row.getD r 0, .le, R.getD r 0⟩ : LinCons)) := by
  have hrowD : ∀ u : Nat, u < D.length → R.length ≤ (D.getD u []).length :=
    fun u hu => hrow _ (getD_mem_of_lt D [] hu)
  apply mapE_range_cast
  intro r hr
  have hinner : mapE (fun u => exBind (pyGet D u) fun row => pyGet row ((r : Nat) : Int))
      ((List.range U.length).map (fun n : Nat => (n : Int)))
      = .ok ((List.range U.length).map fun u => (D.getD u []).getD r 0) := by
    apply mapE_range_cast
    intro u hu
    have hu' : u < D.length := by omega
    rw [pyGet_natCast D u [] hu', exBind_ok]
    exact pyGet_natCast _ r 0 (by have := hrowD u hu'; omega)
  rw [hinner, exBind_ok]
  have htn : (((r : Nat) : Int)).toNat = r := rfl
  rw [htn]
  have hcoeffs : ((List.range U.length).map fun u => (D.getD u []).getD r 0)
      = D.map fun row => row.getD r 0 := by
    rw [← hd]
    exact range_map_getD [] (fun row => row.getD r 0) D
  rw [hcoeffs]

/-- Shared sub-derivation for the two section III builders: the objective
coefficients `DATA[u][0] + DATA[u][1] + DATA[u][2]` evaluate on rows of
length at least 3. -/
theorem resourceObj_mapE_eq (U : List String) (D : List (List Int))
    (hd : D.length = U.length) (hrow3 : ∀ row ∈ D, 3 ≤ row.length) :
    mapE (fun u =>
        exBind (pyGet D u) fun row =>
        exBind (pyGet row 0) fun a =>
        exBind (pyGet row 1) fun b =>
        exBind (pyGet row 2) fun c =>
        .ok (a + b + c))
      ((List.range U.length).map (fun n : Nat => (n : Int)))
      = .ok (D.map fun row => row.getD 0 0 + row.getD 1 0 + row.getD 2 0) := by
  have hrowD : ∀ u : Nat, u < D.length → 3 ≤ (D.getD u []).length :=
    fun u hu => hrow3 _ (getD_mem_of_lt D [] hu)
  have : mapE (fun u =>
        exBind (pyGet D u) fun row =>
        exBind (pyGet row 0) fun a =>
        exBind (pyGet row 1) fun b =>
        exBind (pyGet row 2) fun c =>
        .ok (a + b + c))
      ((List.range U.length).map (fun n : Nat => (n : Int)))
      = .ok ((List.range U.length).map fun u =>
          (D.getD u []).getD 0 0 + (D.getD u []).getD 1 0 + (D.getD u []).getD 2 0) := by
    apply mapE_range_cast
    intro u hu
    have hu' : u < D.length := by omega
    have hlen := hrowD u hu'
    rw [pyGet_natCast D u [] hu', exBind_ok]
    have e0 : pyGet (D.getD u []) 0 = .ok ((D.getD u []).getD 0 0) := by
      have := pyGet_natCast (D.getD u []) 0 0 (by omega)
      simpa using this
    have e1 : pyGet (D.getD u []) 1 = .ok ((D.getD u []).getD 1 0) := by
      have := pyGet_natCast (D.getD u []) 1 0 (by omega)
      simpa using this
    have e2 : pyGet (D.getD u []) 2 = .ok ((D.getD u []).getD 2 0) := by
      have := pyGet_natCast (D.getD u []) 2 0 (by omega)
      simpa using this
    rw [e0, exBind_ok, e1, exBind_ok, e2, exBind_ok]
  rw [this]
  congr 1
  rw [← hd]
  exact range_map_getD [] (fun row => row.getD 0 0 + row.getD 1 0 + row.getD 2 0) D

/-- What the combined `solve_army` of section III registers: the same
variables, the power constraint repeated once per resource dimension
followed by the capacity constraints, and the minimized resource-sum
objective whose coefficients come from each row's first three columns (not
its trailing value column). -/
theorem solve_army_build_combined_eq (U : List String) (D : List (List Int))
    (R : List Int) (hd : D.length = U.length)
    (hrow : ∀ row ∈ D, row.length = R.length + 2) (hR : 1 ≤ R.length) :
    solve_army_build_combined U D R = .ok
      { vars := U.map fun n => (n, 0, none),
        cons := (List.range R.length).map (fun _ => powerLinCons D) ++
          ((List.range R.length).map fun r =>
            ⟨D.map fun row => row.getD r 0, .le, R.getD r 0⟩),
        objective := D.map fun row => row.getD 0 0 + row.getD 1 0 + row.getD 2 0,
        maximize := false } := by
  have hpow := power_mapE_eq U D hd (fun row hrw => by have := hrow row hrw; omega)
  have hpowCons : mapE (fun _r =>
      exBind (mapE (fun u =>
          exBind (pyGet D u) fun row =>
          exBind (pyGet row (-2)) fun att =>
          exBind (pyGet row (-1)) fun hea =>
          .ok (10 * att + hea))
        ((List.range U.length).map (fun n : Nat => (n : Int)))) fun coeffs =>
      .ok ⟨coeffs, .ge, 1000001⟩)
      ((List.range R.length).map (fun n : Nat => (n : Int)))
      = .ok ((List.range R.length).map fun _ => powerLinCons D) := by
    apply mapE_range_cast
    intro r hr
    rw [hpow, exBind_ok]
    rfl
  have hcap := cap_mapE_eq U D R hd (fun row hrw => by have := hrow row hrw; omega)
  have hobj := resourceObj_mapE_eq U D hd (fun row hrw => by have := hrow row hrw; omega)
  unfold solve_army_build_combined
  rw [hpowCons, exBind_ok, hcap, exBind_ok, hobj, exBind_ok]

/-- What the once-only comparison builder registers: identical to
`solve_army_build_combined_eq` except that the power constraint appears
exactly once at the head of the constraint list. -/
theorem solve_army_build_once_eq (U : List String) (D : List (List Int))
    (R : List Int) (hd : D.length = U.length)
    (hrow : ∀ row ∈ D, row.length = R.length + 2) (hR : 1 ≤ R.length) :
    solve_army_build_once U D R = .ok
      { vars := U.map fun n => (n, 0, none),
        cons := powerLinCons D ::
          ((List.range R.length).map fun r =>
            ⟨D.map fun row => row.getD r 0, .le, R.getD r 0⟩),
        objective := D.map fun row => row.getD 0 0 + row.getD 1 0 + row.getD 2 0,
        maximize := false } := by
  have hpow := power_mapE_eq U D hd (fun row hrw => by have := hrow row hrw; omega)
  have hcap := cap_mapE_eq U D R hd (fun row hrw => by have := hrow row hrw; omega)
  have hobj := resourceObj_mapE_eq U D hd (fun row hrw => by have := hrow row hrw; omega)
  unfold solve_army_build_once
  rw [hpow, exBind_ok, exBind_ok, hcap, exBind_ok, hobj, exBind_ok]
  rfl

/-! ### Enumeration and feasibility lemmas for the CP-SAT models -/

theorem mem_boxPoints : ∀ (bs : List (Int × Int)) (x : List Int),
    x ∈ boxPoints bs ↔
      x.length = bs.length ∧ ∀ p ∈ bs.zip x, p.1.1 ≤ p.2 ∧ p.2 ≤ p.1.2 := by
  intro bs
  induction bs with
  | nil =>
      intro x
      simp [boxPoints, List.length_eq_zero]
  | cons b rest ih =>
      rcases b with ⟨lo, hi⟩
      intro x
      constructor
      · intro hx
        rw [boxPoints, List.mem_flatMap] at hx
        obtain ⟨v, hv, hx⟩ := hx
        rw [List.mem_map] at hx
        obtain ⟨t, ht, rfl⟩ := hx
        rw [List.mem_map] at hv
        obtain ⟨k, hk, rfl⟩ := hv
        rw [List.mem_range] at hk
        obtain ⟨hlen, hzip⟩ := (ih t).mp ht
        refine ⟨by simp [hlen], ?_⟩
        intro p hp
        rcases List.mem_cons.mp hp with rfl | hmem
        · constructor <;> simp <;> omega
        · exact hzip p hmem
      · rintro ⟨hlen, hzip⟩
        cases x with
        | nil => simp at hlen
        | cons v t =>
            rw [boxPoints, List.mem_flatMap]
            have hv : lo ≤ v ∧ v ≤ hi := hzip ((lo, hi), v) (List.mem_cons_self _ _)
            refine ⟨v, ?_, ?_⟩
            · rw [List.mem_map]
              refine ⟨(v - lo).toNat, ?_, ?_⟩
              · rw [List.mem_range]
                omega
              · obtain ⟨h1, h2⟩ := hv
                omega
            · rw [List.mem_map]
              refine ⟨t, (ih t).mpr ⟨by simpa using hlen,
                fun p hp => hzip p (List.mem_cons_of_mem _ hp)⟩, rfl⟩

theorem feasibleB_iff (m : CpSatModel) (x : List Int) :
    m.feasibleB x = true ↔ m.Feasible x := by
  simp [CpSatModel.feasibleB, CpSatModel.Feasible, List.all_eq_true, and_assoc]

theorem exists_three_of_length {α : Type} {x : List α} (h : x.length = 3) :
    ∃ a b c, x = [a, b, c] := by
  rcases x with _ | ⟨a, x⟩
  · exact absurd h (by simp)
  rcases x with _ | ⟨b, x⟩
  · exact absurd h (by simp)
  rcases x with _ | ⟨c, x⟩
  · exact absurd h (by simp)
  rcases x with _ | ⟨d, x⟩
  · exact ⟨a, b, c, rfl⟩
  · simp only [List.length_cons] at h
    omega

/-! ### The fixed models of the notebooks, and their optima -/

/-- The model the generic `solve_army` registers on the section II inputs
(`UNITS1`, `DATA1`, `RESOURCES1`), written out. -/
def armyModel : MPModel :=
  { vars := [("Swordsmen", 0, none), ("Bowmen", 0, none), ("Horsemen", 0, none)],
    cons := [⟨[60, 80, 140], .le, 1200⟩, ⟨[20, 10, 0], .le, 800⟩,
      ⟨[0, 40, 100], .le, 600⟩],
    objective := [70, 95, 230],
    maximize := true }

theorem solve_army_build_data1 :
    solve_army_build UNITS1 DATA1 RESOURCES1 = .ok armyModel := rfl

theorem army_feasible_606 : armyModel.Feasible [6, 0, 6] := by
  refine ⟨rfl, ?_, ?_⟩ <;> simp [armyModel, Rel.holds, dot] <;> norm_num

theorem army_objVal_606 : armyModel.objVal [6, 0, 6] = 1800 := by
  simp [armyModel, MPModel.objVal, dot]

theorem army_bound : ∀ z, armyModel.Feasible z →
    armyModel.objVal z ≤ 1800 ∧ (armyModel.objVal z = 1800 → z = [6, 0, 6]) := by
  intro z hz
  obtain ⟨hlen, hb, hc⟩ := hz
  obtain ⟨s, b, h3, rfl⟩ := exists_three_of_length (by simpa [armyModel] using hlen)
  simp only [armyModel, List.zip_cons_cons, List.zip_nil_right, List.mem_cons,
    List.not_mem_nil, or_false, forall_eq_or_imp, forall_eq] at hb hc
  obtain ⟨⟨hs0, -⟩, ⟨hb0, -⟩, ⟨hh0, -⟩⟩ := hb
  obtain ⟨h1, h2, h4⟩ := hc
  simp only [Rel.holds, dot, List.zipWith_cons_cons, List.zipWith_nil_right,
    List.sum_cons, List.sum_nil] at h1 h2 h4
  simp only [MPModel.objVal, armyModel, dot, List.zipWith_cons_cons,
    List.zipWith_nil_right, List.sum_cons, List.sum_nil, List.cons.injEq,
    and_true]
  omega

theorem ration_feasible_212 : rationModel.Feasible [2, 1, 2] := by
  refine ⟨rfl, ?_, ?_⟩ <;>
    simp [rationModel, rationModelCap, dot] <;> norm_num

theorem ration_objVal_212 : rationModel.objVal [2, 1, 2] = 68 := by
  simp [rationModel, rationModelCap, CpSatModel.objVal, dot]

theorem ration_bound : ∀ z, rationModel.Feasible z →
    rationModel.objVal z ≤ 68 ∧ (rationModel.objVal z = 68 → z = [2, 1, 2]) := by
  intro z hz
  obtain ⟨hlen, hb, hc⟩ := hz
  obtain ⟨b, m, be, rfl⟩ := exists_three_of_length
    (by simpa [rationModel, rationModelCap] using hlen)
  simp only [rationModel, rationModelCap, List.zip_cons_cons, List.zip_nil_right,
    List.mem_cons, List.not_mem_nil, or_false, forall_eq_or_imp, forall_eq] at hb hc
  obtain ⟨⟨hb1, hb2⟩, ⟨hm1, hm2⟩, ⟨he1, he2⟩⟩ := hb
  simp only [dot, List.zipWith_cons_cons, List.zipWith_nil_right, List.sum_cons,
    List.sum_nil] at hc
  simp only [CpSatModel.objVal, rationModel, rationModelCap, Option.getD_some, dot,
    List.zipWith_cons_cons, List.zipWith_nil_right, List.sum_cons, List.sum_nil,
    List.cons.injEq, and_true]
  omega

theorem ration20_feasible_022 : (rationModelCap 20).Feasible [0, 2, 2] := by
  refine ⟨rfl, ?_, ?_⟩ <;> simp [rationModelCap, dot] <;> norm_num

theorem ration20_objVal_022 : (rationModelCap 20).objVal [0, 2, 2] = 72 := by
  simp [rationModelCap, CpSatModel.objVal, dot]

theorem ration20_bound : ∀ z, (rationModelCap 20).Feasible z →
    (rationModelCap 20).objVal z ≤ 72 := by
  intro z hz
  obtain ⟨hlen, hb, hc⟩ := hz
  obtain ⟨b, m, be, rfl⟩ := exists_three_of_length
    (by simpa [rationModelCap] using hlen)
  simp only [rationModelCap, List.zip_cons_cons, List.zip_nil_right,
    List.mem_cons, List.not_mem_nil, or_false, forall_eq_or_imp, forall_eq] at hb hc
  obtain ⟨⟨hb1, hb2⟩, ⟨hm1, hm2⟩, ⟨he1, he2⟩⟩ := hb
  simp only [dot, List.zipWith_cons_cons, List.zipWith_nil_right, List.sum_cons,
    List.sum_nil] at hc
  simp only [CpSatModel.objVal, rationModelCap, Option.getD_some, dot,
    List.zipWith_cons_cons, List.zipWith_nil_right, List.sum_cons, List.sum_nil]
  omega

/-! ### Monotonicity and uniqueness helpers -/

theorem cpsat_max_le {M Mb : CpSatModel} {v vb : Int}
    (hmono : ∀ x, M.Feasible x → Mb.Feasible x)
    (hobj : ∀ x, M.objVal x = Mb.objVal x)
    (hv : M.IsMaxValue v) (hvb : Mb.IsMaxValue vb) : v ≤ vb := by
  obtain ⟨⟨x, hx, hxv⟩, -⟩ := hv
  calc v = M.objVal x := hxv.symm
    _ = Mb.objVal x := hobj x
    _ ≤ vb := hvb.2 x (hmono x hx)

theorem mp_max_le {M Mb : MPModel} {v vb : Int} (hMb : Mb.maximize = true)
    (hmono : ∀ x, M.Feasible x → Mb.Feasible x)
    (hobj : ∀ x, M.objVal x = Mb.objVal x)
    (hv : M.IsOptimalValue v) (hvb : Mb.IsOptimalValue vb) : v ≤ vb := by
  obtain ⟨⟨x, hx, hxv⟩, -⟩ := hv
  have := hvb.2 x (hmono x hx)
  rw [hMb] at this
  calc v = M.objVal x := hxv.symm
    _ = Mb.objVal x := hobj x
    _ ≤ vb := this

theorem ration_mono {c cb : Int} (h : c ≤ cb) :
    ∀ x, (rationModelCap c).Feasible x → (rationModelCap cb).Feasible x := by
  intro x hx
  obtain ⟨hlen, hb, hc⟩ := hx
  obtain ⟨b, m, be, rfl⟩ := exists_three_of_length
    (by simpa [rationModelCap] using hlen)
  simp only [rationModelCap, List.zip_cons_cons, List.zip_nil_right,
    List.mem_cons, List.not_mem_nil, or_false, forall_eq_or_imp, forall_eq] at hb hc
  obtain ⟨⟨hb1, hb2⟩, ⟨hm1, hm2⟩, ⟨he1, he2⟩⟩ := hb
  simp only [dot, List.zipWith_cons_cons, List.zipWith_nil_right, List.sum_cons,
    List.sum_nil] at hc
  refine ⟨rfl, ?_, ?_⟩
  · simp only [rationModelCap, List.zip_cons_cons, List.zip_nil_right,
      List.mem_cons, List.not_mem_nil, or_false, forall_eq_or_imp, forall_eq]
    refine ⟨⟨by omega, by omega⟩, ⟨by omega, by omega⟩, by omega, by omega⟩
  · simp only [rationModelCap, List.mem_cons, List.not_mem_nil, or_false,
      forall_eq, dot, List.zipWith_cons_cons, List.zipWith_nil_right,
      List.sum_cons, List.sum_nil]
    omega

/-- The optimal objective value of the section II army model, with the
optimum attained at `[6, 0, 6]` (6 swordsmen, 0 bowmen, 6 horsemen,
power 1800, as printed by the notebook). -/
theorem army_opt_value_1800 : armyModel.IsOptimalValue 1800 :=
  ⟨⟨[6, 0, 6], army_feasible_606, army_objVal_606⟩,
   fun z hz => (army_bound z hz).1⟩

theorem army_opt_point_606 : armyModel.IsOptimalPoint [6, 0, 6] := by
  refine ⟨army_feasible_606, fun z hz => ?_⟩
  show armyModel.objVal z ≤ armyModel.objVal [6, 0, 6]
  rw [army_objVal_606]
  exact (army_bound z hz).1

/-- The maximal popularity of the ration model is 68, attained at
2 bread, 1 meat, 2 beer (as printed by the notebook). -/
theorem ration_max_68 : rationModel.IsMaxValue 68 :=
  ⟨⟨[2, 1, 2], ration_feasible_212, ration_objVal_212⟩,
   fun z hz => (ration_bound z hz).1⟩

theorem ration_max_point_212 : rationModel.IsMaxPoint [2, 1, 2] := by
  refine ⟨ration_feasible_212, fun z hz => ?_⟩
  rw [ration_objVal_212]
  exact (ration_bound z hz).1

/-- With the capacity parameter raised to 20 the maximal popularity is
72. -/
theorem ration20_max_72 : (rationModelCap 20).IsMaxValue 72 :=
  ⟨⟨[0, 2, 2], ration20_feasible_022, ration20_objVal_022⟩, ration20_bound⟩

/-- The model the combined `solve_army` of section III registers on the
notebook inputs, written out (power constraint repeated once per resource,
then the three capacity constraints). -/
def armyCombinedModel : MPModel :=
  { vars := [("Swordsmen", 0, none), ("Men-at-arms", 0, none), ("Bowmen", 0, none),
      ("Crossbowmen", 0, none), ("Handcannoneers", 0, none), ("Horsemen", 0, none),
      ("Knights", 0, none), ("Battering rams", 0, none), ("Springalds", 0, none),
      ("Mangonels", 0, none)],
    cons := [⟨[130, 275, 120, 200, 500, 215, 470, 2700, 500, 600], .ge, 1000001⟩,
      ⟨[130, 275, 120, 200, 500, 215, 470, 2700, 500, 600], .ge, 1000001⟩,
      ⟨[130, 275, 120, 200, 500, 215, 470, 2700, 500, 600], .ge, 1000001⟩,
      ⟨[60, 100, 30, 80, 120, 100, 140, 0, 0, 0], .le, 183000⟩,
      ⟨[20, 0, 50, 0, 0, 20, 0, 300, 250, 400], .le, 90512⟩,
      ⟨[0, 20, 0, 40, 120, 0, 100, 0, 250, 200], .le, 80150⟩],
    objective := [80, 120, 80, 120, 240, 120, 240, 300, 500, 600],
    maximize := false }

/-- The once-only comparison model on the notebook inputs, written out. -/
def armyOnceModel : MPModel :=
  { vars := armyCombinedModel.vars,
    cons := [⟨[130, 275, 120, 200, 500, 215, 470, 2700, 500, 600], .ge, 1000001⟩,
      ⟨[60, 100, 30, 80, 120, 100, 140, 0, 0, 0], .le, 183000⟩,
      ⟨[20, 0, 50, 0, 0, 20, 0, 300, 250, 400], .le, 90512⟩,
      ⟨[0, 20, 0, 40, 120, 0, 100, 0, 250, 200], .le, 80150⟩],
    objective := armyCombinedModel.objective,
    maximize := false }

theorem solve_army_build_combined_data2 :
    solve_army_build_combined UNITS2 DATA2 RESOURCES2 = .ok armyCombinedModel := rfl

theorem solve_army_build_once_data2 :
    solve_army_build_once UNITS2 DATA2 RESOURCES2 = .ok armyOnceModel := rfl

/-! ### The claims -/

/-- C2 (counterexample): on an `INFEASIBLE` solver status the `solve_army`
cells report the single generic failure message — not a distinct
`Infeasible` or `Unbounded` outcome — and the report on an `UNBOUNDED`
status is identical, so the caller cannot tell the two negative outcomes
apart, contrary to the claim's `signals an Infeasible or Unbounded
outcome`. -/
theorem claim_C2_counterexample :
    solve_army_report MPStatus.INFEASIBLE 0 [] ≠ ArmyOutcome.infeasible ∧
    solve_army_report MPStatus.INFEASIBLE 0 [] ≠ ArmyOutcome.unbounded ∧
    solve_army_report MPStatus.INFEASIBLE 0 [] =
      solve_army_report MPStatus.UNBOUNDED 0 [] := by
  refine ⟨?_, ?_, rfl⟩ <;> decide

/-- C2 (amended): on an `OPTIMAL` status `solve_army` reports the objective
value together with the variable assignment; on every non-optimal status it
reports one fixed generic failure message (the same for infeasible and
unbounded models), and no exception path exists. -/
theorem claim_C2 : ∀ (st : MPStatus) (obj : Int) (asgn : List (String × Int)),
    (st = MPStatus.OPTIMAL →
      solve_army_report st obj asgn = ArmyOutcome.solved obj asgn) ∧
    (st ≠ MPStatus.OPTIMAL →
      solve_army_report st obj asgn =
        ArmyOutcome.notSolved "The solver could not find an optimal solution.") := by
  intro st obj asgn
  constructor
  · rintro rfl
    rfl
  · intro h
    simp [solve_army_report, h]

/-- Witness for C2 at concrete statuses. -/
theorem claim_C2_witness :
    solve_army_report MPStatus.OPTIMAL 1800 [("Swordsmen", 6)] =
      ArmyOutcome.solved 1800 [("Swordsmen", 6)] ∧
    solve_army_report MPStatus.INFEASIBLE 0 [] =
      ArmyOutcome.notSolved "The solver could not find an optimal solution." :=
  ⟨(claim_C2 MPStatus.OPTIMAL 1800 [("Swordsmen", 6)]).1 rfl,
   (claim_C2 MPStatus.INFEASIBLE 0 []).2 (by decide)⟩

/-- C3: the scouts model (one variable in `[1, 10000]` constrained to be
divisible by 13, 19 and 37) has exactly one feasible value, 9139. -/
theorem claim_C3 : ∀ a : Int, scoutModel.Feasible a ↔ a = 9139 := by
  intro a
  constructor
  · rintro ⟨h1, h2, hmods⟩
    have hlo : (1 : Int) ≤ a := h1
    have hhi : a ≤ 10000 := h2
    have d13 : (13 : Int) ∣ a :=
      Int.dvd_of_emod_eq_zero (hmods 13 (by simp [scoutModel]))
    have d19 : (19 : Int) ∣ a :=
      Int.dvd_of_emod_eq_zero (hmods 19 (by simp [scoutModel]))
    have d37 : (37 : Int) ∣ a :=
      Int.dvd_of_emod_eq_zero (hmods 37 (by simp [scoutModel]))
    have c1 : IsCoprime (13 : Int) 19 := by
      rw [Int.isCoprime_iff_gcd_eq_one]
      norm_num
    have d247 : (13 * 19 : Int) ∣ a := c1.mul_dvd d13 d19
    have c2 : IsCoprime (13 * 19 : Int) 37 := by
      rw [Int.isCoprime_iff_gcd_eq_one]
      norm_num
    have d9139 : (13 * 19 * 37 : Int) ∣ a := c2.mul_dvd d247 d37
    obtain ⟨k, hk⟩ := d9139
    have h9139 : (13 * 19 * 37 : Int) = 9139 := by norm_num
    rw [h9139] at hk
    omega
  · rintro rfl
    refine ⟨by norm_num [scoutModel], by norm_num [scoutModel], ?_⟩
    intro d hd
    have : d = 13 ∨ d = 19 ∨ d = 37 := by
      simpa [scoutModel] using hd
    rcases this with rfl | rfl | rfl <;> decide

/-- C4: the maximal objective value of the ration model (capacity 19,
items (1,3), (3,10), (7,26)) over all feasible assignments is exactly
68. -/
theorem claim_C4 : rationModel.IsMaxValue 68 := ration_max_68

/-- C10: the optimization cells' success branch is taken exactly on the
`OPTIMAL` status (so a `FEASIBLE`-but-not-proven-optimal status takes the
failure branch), while the satisfiability cell's success branch is taken
exactly on `OPTIMAL` or `FEASIBLE`. -/
theorem claim_C10 :
    (∀ (st : MPStatus) (obj : Int) (asgn : List (String × Int)),
      (∃ v a, solve_army_report st obj asgn = ArmyOutcome.solved v a) ↔
        st = MPStatus.OPTIMAL) ∧
    (∀ (st : CpStatus) (b m be : Int),
      (ration_report st b m be).isSome = true ↔ st = CpStatus.OPTIMAL) ∧
    (∀ (st : CpStatus) (a : Int),
      (scout_report st a).isSome = true ↔
        (st = CpStatus.OPTIMAL ∨ st = CpStatus.FEASIBLE)) := by
  refine ⟨?_, ?_, ?_⟩
  · intro st obj asgn
    cases st <;> simp [solve_army_report]
  · intro st b m be
    cases st <;> simp [ration_report]
  · intro st a
    cases st <;> simp [scout_report]

/-- Enumeration over the variable boxes visits exactly the feasible
points. -/
theorem mem_solutionList_iff (m : CpSatModel) (x : List Int) :
    x ∈ m.solutionList ↔ m.Feasible x := by
  rw [CpSatModel.solutionList, List.mem_filter, feasibleB_iff, mem_boxPoints]
  constructor
  · exact fun h => h.2
  · intro hf
    refine ⟨⟨?_, ?_⟩, hf⟩
    · simpa using hf.1
    · intro p hp
      rw [List.zip_map_left, List.mem_map] at hp
      obtain ⟨q, hq, rfl⟩ := hp
      exact hf.2.1 q hq

set_option maxRecDepth 100000 in
/-- C5: the counting cell's model (bread, meat, beer in `[0, 19]` with
`1*bread + 3*meat + 7*beer <= 19`) has exactly 121 solutions, and its
solution list contains precisely the integer triples satisfying the bounds
and the capacity constraint. -/
theorem claim_C5 :
    countModel.solutionCount = 121 ∧
    (∀ b m be : Int, [b, m, be] ∈ countModel.solutionList ↔
      (0 ≤ b ∧ b ≤ 19 ∧ 0 ≤ m ∧ m ≤ 19 ∧ 0 ≤ be ∧ be ≤ 19 ∧
        b + 3 * m + 7 * be ≤ 19)) := by
  constructor
  · decide
  · intro b m be
    rw [mem_solutionList_iff]
    constructor
    · rintro ⟨hlen, hb, hc⟩
      simp only [countModel, List.zip_cons_cons, List.zip_nil_right, List.mem_cons,
        List.not_mem_nil, or_false, forall_eq_or_imp, forall_eq] at hb hc
      obtain ⟨⟨h1, h2⟩, ⟨h3, h4⟩, h5, h6⟩ := hb
      simp only [dot, List.zipWith_cons_cons, List.zipWith_nil_right, List.sum_cons,
        List.sum_nil] at hc
      refine ⟨h1, h2, h3, h4, h5, h6, by omega⟩
    · rintro ⟨h1, h2, h3, h4, h5, h6, h7⟩
      refine ⟨rfl, ?_, ?_⟩
      · simp only [countModel, List.zip_cons_cons, List.zip_nil_right, List.mem_cons,
          List.not_mem_nil, or_false, forall_eq_or_imp, forall_eq]
        exact ⟨⟨h1, h2⟩, ⟨h3, h4⟩, h5, h6⟩
      · simp only [countModel, List.mem_cons, List.not_mem_nil, or_false, forall_eq,
          dot, List.zipWith_cons_cons, List.zipWith_nil_right, List.sum_cons,
          List.sum_nil]
        omega

theorem exists_two_of_length {α : Type} {x : List α} (h : x.length = 2) :
    ∃ a b, x = [a, b] := by
  rcases x with _ | ⟨a, x⟩
  · exact absurd h (by simp)
  rcases x with _ | ⟨b, x⟩
  · exact absurd h (by simp)
  rcases x with _ | ⟨c, x⟩
  · exact ⟨a, b, rfl⟩
  · simp only [List.length_cons] at h
    omega

/-- A model the generic `solve_army` can build whose optimum is attained at
two distinct assignments: two interchangeable units of identical cost and
value, one capacity. -/
def tieModel : MPModel :=
  { vars := [("a", 0, none), ("b", 0, none)],
    cons := [⟨[1, 1], .le, 1⟩],
    objective := [1, 1],
    maximize := true }

theorem tie_bound : ∀ z, tieModel.Feasible z → tieModel.objVal z ≤ 1 := by
  intro z hz
  obtain ⟨hlen, hb, hc⟩ := hz
  obtain ⟨a, b, rfl⟩ := exists_two_of_length (by simpa [tieModel] using hlen)
  simp only [tieModel, List.zip_cons_cons, List.zip_nil_right, List.mem_cons,
    List.not_mem_nil, or_false, forall_eq_or_imp, forall_eq] at hb hc
  obtain ⟨⟨ha0, -⟩, hb0, -⟩ := hb
  simp only [Rel.holds, dot, List.zipWith_cons_cons, List.zipWith_nil_right,
    List.sum_cons, List.sum_nil] at hc
  simp only [MPModel.objVal, tieModel, dot, List.zipWith_cons_cons,
    List.zipWith_nil_right, List.sum_cons, List.sum_nil]
  omega

theorem tie_opt_point (a b : Int) (ha : 0 ≤ a) (hb : 0 ≤ b) (hab : a + b = 1) :
    tieModel.IsOptimalPoint [a, b] := by
  have hfeas : tieModel.Feasible [a, b] := by
    refine ⟨rfl, ?_, ?_⟩
    · simp only [tieModel, List.zip_cons_cons, List.zip_nil_right, List.mem_cons,
        List.not_mem_nil, or_false, forall_eq_or_imp, forall_eq]
      refine ⟨⟨ha, ?_⟩, hb, ?_⟩ <;> intro ub hub <;> simp at hub
    · simp only [tieModel, List.mem_cons, List.not_mem_nil, or_false, forall_eq,
        Rel.holds, dot, List.zipWith_cons_cons, List.zipWith_nil_right,
        List.sum_cons, List.sum_nil]
      omega
  refine ⟨hfeas, fun y hy => ?_⟩
  show tieModel.objVal y ≤ tieModel.objVal [a, b]
  have hval : tieModel.objVal [a, b] = 1 := by
    simp only [MPModel.objVal, tieModel, dot, List.zipWith_cons_cons,
      List.zipWith_nil_right, List.sum_cons, List.sum_nil]
    omega
  rw [hval]
  exact tie_bound y hy

/-- C7 (counterexample): solving is modelled as returning some
status-OPTIMAL outcome, i.e. some optimal point of the model; the fixed
model that `solve_army(['a','b'], [[1,1],[1,1]], [1])` builds has two
distinct optimal assignments, `[1, 0]` and `[0, 1]`, so identical
assignments across two invocations are not guaranteed by the model alone
for every fixed model. -/
theorem claim_C7_counterexample :
    solve_army_build ["a", "b"] [[1, 1], [1, 1]] [1] = .ok tieModel ∧
    tieModel.IsOptimalPoint [1, 0] ∧
    tieModel.IsOptimalPoint [0, 1] ∧
    ([1, 0] : List Int) ≠ [0, 1] :=
  ⟨rfl, tie_opt_point 1 0 (by norm_num) (by norm_num) (by norm_num),
   tie_opt_point 0 1 (by norm_num) (by norm_num) (by norm_num), by decide⟩

/-- C7 (amended): the objective value reported by a successful solve is
uniquely determined by the model — any two optimal values of the same
fixed model are equal — and for the notebooks' fixed models whose optimum
point is unique (the section II army model, optimum `[6, 0, 6]`, and the
ration model, optimum `[2, 1, 2]`) the reported assignment is identical
across invocations as well; identical assignments for every fixed model
cannot be guaranteed, since a model may have tied optima. -/
theorem claim_C7 :
    (∀ (m : MPModel) (v vb : Int),
      m.IsOptimalValue v → m.IsOptimalValue vb → v = vb) ∧
    (∀ x y : List Int,
      armyModel.IsOptimalPoint x → armyModel.IsOptimalPoint y → x = y) ∧
    (∀ x y : List Int,
      rationModel.IsMaxPoint x → rationModel.IsMaxPoint y → x = y) := by
  refine ⟨?_, ?_, ?_⟩
  · intro m v vb hv hvb
    obtain ⟨⟨x, hx, hxv⟩, hvup⟩ := hv
    obtain ⟨⟨y, hy, hyv⟩, hvbup⟩ := hvb
    have h1 := hvup y hy
    have h2 := hvbup x hx
    cases hm : m.maximize
    · rw [hm] at h1 h2
      simp only [cond_false] at h1 h2
      omega
    · rw [hm] at h1 h2
      simp only [cond_true] at h1 h2
      omega
  · intro x y hx hy
    obtain ⟨hfx, hox⟩ := hx
    obtain ⟨hfy, hoy⟩ := hy
    have h1 : armyModel.objVal [6, 0, 6] ≤ armyModel.objVal x :=
      hox [6, 0, 6] army_feasible_606
    rw [army_objVal_606] at h1
    have h3 : armyModel.objVal x = 1800 := le_antisymm (army_bound x hfx).1 h1
    have h2 : armyModel.objVal [6, 0, 6] ≤ armyModel.objVal y :=
      hoy [6, 0, 6] army_feasible_606
    rw [army_objVal_606] at h2
    have h4 : armyModel.objVal y = 1800 := le_antisymm (army_bound y hfy).1 h2
    rw [(army_bound x hfx).2 h3, (army_bound y hfy).2 h4]
  · intro x y hx hy
    obtain ⟨hfx, hox⟩ := hx
    obtain ⟨hfy, hoy⟩ := hy
    have h1 : rationModel.objVal [2, 1, 2] ≤ rationModel.objVal x :=
      hox [2, 1, 2] ration_feasible_212
    rw [ration_objVal_212] at h1
    have h3 : rationModel.objVal x = 68 := le_antisymm (ration_bound x hfx).1 h1
    have h2 : rationModel.objVal [2, 1, 2] ≤ rationModel.objVal y :=
      hoy [2, 1, 2] ration_feasible_212
    rw [ration_objVal_212] at h2
    have h4 : rationModel.objVal y = 68 := le_antisymm (ration_bound y hfy).1 h2
    rw [(ration_bound x hfx).2 h3, (ration_bound y hfy).2 h4]

/-- Witness for C7: two optimal outcomes of the fixed models agree. -/
theorem claim_C7_witness :
    (1800 : Int) = 1800 ∧ ([6, 0, 6] : List Int) = [6, 0, 6] ∧
    ([2, 1, 2] : List Int) = [2, 1, 2] :=
  ⟨claim_C7.1 armyModel 1800 1800 army_opt_value_1800 army_opt_value_1800,
   claim_C7.2.1 [6, 0, 6] [6, 0, 6] army_opt_point_606 army_opt_point_606,
   claim_C7.2.2 [2, 1, 2] [2, 1, 2] ration_max_point_212 ration_max_point_212⟩

/-- C6: relaxing a model monotonically — raising the capacities of the
generic army model, or raising the shared capacity/bound parameter of the
ration model — cannot decrease the optimal objective value. -/
theorem claim_C6 :
    (∀ (U : List String) (D : List (List Int)) (R Rb : List Int)
        (m mb : MPModel) (v vb : Int),
      R.length = Rb.length →
      (∀ i, i < R.length → R.getD i 0 ≤ Rb.getD i 0) →
      D.length = U.length →
      (∀ row ∈ D, row.length = R.length + 1) →
      solve_army_build U D R = .ok m →
      solve_army_build U D Rb = .ok mb →
      m.IsOptimalValue v → mb.IsOptimalValue vb → v ≤ vb) ∧
    (∀ c cb v vb : Int, c ≤ cb →
      (rationModelCap c).IsMaxValue v → (rationModelCap cb).IsMaxValue vb →
      v ≤ vb) := by
  constructor
  · intro U D R Rb m mb v vb hlen hle hd hrow hm hmb hv hvb
    rw [solve_army_build_eq U D R hd (fun row hr => by have := hrow row hr; omega)]
      at hm
    rw [solve_army_build_eq U D Rb hd
      (fun row hr => by have := hrow row hr; omega)] at hmb
    cases hm
    cases hmb
    refine mp_max_le ?_ ?_ ?_ hv hvb
    · rfl
    · intro x hx
      obtain ⟨hxlen, hxb, hxc⟩ := hx
      refine ⟨hxlen, hxb, ?_⟩
      intro cns hcns
      rw [List.mem_map] at hcns
      obtain ⟨r, hr, rfl⟩ := hcns
      rw [List.mem_range] at hr
      have hc := hxc (LinCons.mk (D.map fun row => row.getD r 0) Rel.le (R.getD r 0))
        (by
          rw [List.mem_map]
          exact ⟨r, List.mem_range.mpr (by omega), rfl⟩)
      have hc' : dot (D.map fun row => row.getD r 0) x ≤ R.getD r 0 := hc
      have hle' := hle r (by omega)
      show dot (D.map fun row => row.getD r 0) x ≤ Rb.getD r 0
      exact le_trans hc' hle'
    · intro x
      rfl
  · intro c cb v vb h hv hvb
    exact cpsat_max_le (ration_mono h) (fun x => rfl) hv hvb

/-- Witness for C6: the army model against itself (equal capacities) and
the ration model at capacities 19 and 20 (optima 68 and 72). -/
theorem claim_C6_witness : ((1800 : Int) ≤ 1800) ∧ ((68 : Int) ≤ 72) :=
  ⟨claim_C6.1 UNITS1 DATA1 RESOURCES1 RESOURCES1 armyModel armyModel 1800 1800
      rfl (fun i _ => le_refl _) rfl (by decide)
      solve_army_build_data1 solve_army_build_data1
      army_opt_value_1800 army_opt_value_1800,
   claim_C6.2 19 20 68 72 (by norm_num) ration_max_68 ration20_max_72⟩

/-- C1 (counterexample): in the combined `solve_army` of section III —
also cited by the claim — the objective coefficient of the first variable
on the notebook data is 80 (`60 + 20 + 0`, the sum of its row's resource
columns), not the row's trailing value column 70, refuting `every variable
appears in the objective with the coefficient taken from its row's
trailing value column` for that call. -/
theorem claim_C1_counterexample :
    solve_army_build_combined UNITS2 DATA2 RESOURCES2 = .ok armyCombinedModel ∧
    armyCombinedModel.objective.getD 0 0 = 80 ∧
    (DATA2.getD 0 []).getLastD 0 = 70 ∧
    armyCombinedModel.objective.getD 0 0 ≠ (DATA2.getD 0 []).getLastD 0 := by
  refine ⟨solve_army_build_combined_data2, rfl, rfl, by decide⟩

/-- C1 (amended): for the generic `solve_army` of section II the claim
holds in full — one `[0, +infinity)` variable per unit name, exactly one
`≤`-constraint per resource dimension with the stated coefficients, and
the objective coefficient taken from each row's trailing value column.
For the combined `solve_army` of section III the variable and
`≤`-constraint clauses still hold, but the objective coefficient is the sum
of the row's first three (resource) columns instead of the trailing value
column. -/
theorem claim_C1 :
    (∀ (U : List String) (D : List (List Int)) (R : List Int),
      D.length = U.length → (∀ row ∈ D, row.length = R.length + 1) →
      ∃ m, solve_army_build U D R = .ok m ∧
        m.vars = U.map (fun n => (n, 0, none)) ∧
        m.cons.length = R.length ∧
        (∀ r, r < R.length → m.cons.getD r ⟨[], .le, 0⟩ =
          ⟨D.map fun row => row.getD r 0, .le, R.getD r 0⟩) ∧
        m.objective = (D.map fun row => row.getLastD 0) ∧
        m.maximize = true) ∧
    (∀ (U : List String) (D : List (List Int)) (R : List Int),
      D.length = U.length → (∀ row ∈ D, row.length = R.length + 2) →
      1 ≤ R.length →
      ∃ m, solve_army_build_combined U D R = .ok m ∧
        m.vars = U.map (fun n => (n, 0, none)) ∧
        (m.cons.filter (fun c => c.rel = Rel.le)).length = R.length ∧
        m.objective =
          (D.map fun row => row.getD 0 0 + row.getD 1 0 + row.getD 2 0)) := by
  constructor
  · intro U D R hd hrow
    refine ⟨_, solve_army_build_eq U D R hd
      (fun row hr => by have := hrow row hr; omega), rfl, by simp, ?_, rfl, rfl⟩
    intro r hr
    rw [List.getD_eq_get _ _ (by simpa using hr)]
    simp [hr]
  · intro U D R hd hrow hR
    refine ⟨_, solve_army_build_combined_eq U D R hd hrow hR, rfl, ?_, rfl⟩
    rw [List.filter_append]
    have h1 : ((List.range R.length).map fun _ => powerLinCons D).filter
        (fun c => decide (c.rel = Rel.le)) = [] := by
      rw [List.filter_eq_nil]
      intro c hc
      rw [List.mem_map] at hc
      obtain ⟨r, -, rfl⟩ := hc
      simp [powerLinCons]
    have h2 : ((List.range R.length).map fun r =>
        (⟨D.map fun row => row.getD r 0, .le, R.getD r 0⟩ : LinCons)).filter
        (fun c => decide (c.rel = Rel.le)) =
        (List.range R.length).map fun r =>
          (⟨D.map fun row => row.getD r 0, .le, R.getD r 0⟩ : LinCons) := by
      rw [List.filter_eq_self]
      intro c hc
      rw [List.mem_map] at hc
      obtain ⟨r, -, rfl⟩ := hc
      simp
    rw [h1, h2]
    simp

/-- Witness for C1 at the notebook inputs. -/
theorem claim_C1_witness :
    (solve_army_build UNITS1 DATA1 RESOURCES1 = .ok armyModel ∧
      armyModel.objective = (DATA1.map fun row => row.getLastD 0)) ∧
    (solve_army_build_combined UNITS2 DATA2 RESOURCES2 = .ok armyCombinedModel ∧
      armyCombinedModel.objective =
        (DATA2.map fun row => row.getD 0 0 + row.getD 1 0 + row.getD 2 0)) := by
  constructor
  · obtain ⟨m, hm, -, -, -, hobj, -⟩ :=
      claim_C1.1 UNITS1 DATA1 RESOURCES1 (by decide) (by decide)
    rw [solve_army_build_data1] at hm
    injection hm with hm
    rw [← hm] at hobj
    exact ⟨solve_army_build_data1, hobj⟩
  · obtain ⟨m, hm, -, -, hobj⟩ :=
      claim_C1.2 UNITS2 DATA2 RESOURCES2 (by decide) (by decide) (by decide)
    rw [solve_army_build_combined_data2] at hm
    injection hm with hm
    rw [← hm] at hobj
    exact ⟨solve_army_build_combined_data2, hobj⟩

/-- Two models with the same variables and the same constraints up to
multiplicity have the same feasible set. -/
theorem feasible_iff_of_cons_mem {m mo : MPModel} (hvars : m.vars = mo.vars)
    (hmem : ∀ c, c ∈ m.cons ↔ c ∈ mo.cons) :
    ∀ x, m.Feasible x ↔ mo.Feasible x := by
  intro x
  unfold MPModel.Feasible
  rw [hvars]
  constructor
  · rintro ⟨h1, h2, h3⟩
    exact ⟨h1, h2, fun c hc => h3 c ((hmem c).mpr hc)⟩
  · rintro ⟨h1, h2, h3⟩
    exact ⟨h1, h2, fun c hc => h3 c ((hmem c).mp hc)⟩

/-- Two models with the same feasible set, objective values and direction
have the same optimal objective values. -/
theorem optimalValue_iff_of_feas {m mo : MPModel}
    (hfeas : ∀ x, m.Feasible x ↔ mo.Feasible x)
    (hobj : ∀ x, m.objVal x = mo.objVal x)
    (hmax : m.maximize = mo.maximize) :
    ∀ v, m.IsOptimalValue v ↔ mo.IsOptimalValue v := by
  intro v
  unfold MPModel.IsOptimalValue
  constructor
  · rintro ⟨⟨x, hx, hxv⟩, hub⟩
    refine ⟨⟨x, (hfeas x).mp hx, by rw [← hobj]; exact hxv⟩, ?_⟩
    intro y hy
    have h := hub y ((hfeas y).mpr hy)
    rw [hobj y, hmax] at h
    exact h
  · rintro ⟨⟨x, hx, hxv⟩, hub⟩
    refine ⟨⟨x, (hfeas x).mpr hx, by rw [hobj]; exact hxv⟩, ?_⟩
    intro y hy
    have h := hub y ((hfeas y).mp hy)
    rw [← hobj y, ← hmax] at h
    exact h

/-- Two models with the same feasible set, objective values and direction
have the same optimal points. -/
theorem optimalPoint_iff_of_feas {m mo : MPModel}
    (hfeas : ∀ x, m.Feasible x ↔ mo.Feasible x)
    (hobj : ∀ x, m.objVal x = mo.objVal x)
    (hmax : m.maximize = mo.maximize) :
    ∀ x, m.IsOptimalPoint x ↔ mo.IsOptimalPoint x := by
  intro x
  unfold MPModel.IsOptimalPoint
  constructor
  · rintro ⟨hx, hub⟩
    refine ⟨(hfeas x).mp hx, ?_⟩
    intro y hy
    have h := hub y ((hfeas y).mpr hy)
    rw [hobj y, hobj x, hmax] at h
    exact h
  · rintro ⟨hx, hub⟩
    refine ⟨(hfeas x).mpr hx, ?_⟩
    intro y hy
    have h := hub y ((hfeas y).mp hy)
    rw [← hobj y, ← hobj x, ← hmax] at h
    exact h

/-- C9: the combined builder's loop adds the syntactically identical power
constraint once per resource dimension (and its variables and objective are
those of the add-once model); since a duplicated constraint does not change
satisfaction, the resulting model has the same feasible set, the same
optimal objective values and the same optimal points as the model that
adds the power constraint exactly once alongside the capacity
constraints. -/
theorem claim_C9 :
    ∀ (U : List String) (D : List (List Int)) (R : List Int) (mc mo : MPModel),
      D.length = U.length → (∀ row ∈ D, row.length = R.length + 2) →
      1 ≤ R.length →
      solve_army_build_combined U D R = .ok mc →
      solve_army_build_once U D R = .ok mo →
      mc.vars = mo.vars ∧
      mc.objective = mo.objective ∧
      mc.maximize = mo.maximize ∧
      mc.cons.count (powerLinCons D) = R.length ∧
      mo.cons.count (powerLinCons D) = 1 ∧
      (∀ x, mc.Feasible x ↔ mo.Feasible x) ∧
      (∀ v, mc.IsOptimalValue v ↔ mo.IsOptimalValue v) ∧
      (∀ x, mc.IsOptimalPoint x ↔ mo.IsOptimalPoint x) := by
  intro U D R mc mo hd hrow hR hmc hmo
  rw [solve_army_build_combined_eq U D R hd hrow hR] at hmc
  rw [solve_army_build_once_eq U D R hd hrow hR] at hmo
  cases hmc
  cases hmo
  have hnotin : powerLinCons D ∉ (List.range R.length).map fun r =>
      (⟨D.map fun row => row.getD r 0, .le, R.getD r 0⟩ : LinCons) := by
    intro hmem
    rw [List.mem_map] at hmem
    obtain ⟨r, -, heq⟩ := hmem
    have : Rel.le = Rel.ge := congrArg LinCons.rel heq
    cases this
  have hcount1 : ((List.range R.length).map fun _ => powerLinCons D).count
      (powerLinCons D) = R.length := by
    rw [List.map_const', List.length_range, List.count_replicate_self]
  have hmem : ∀ c : LinCons,
      (c ∈ ((List.range R.length).map fun _ => powerLinCons D) ++
        ((List.range R.length).map fun r =>
          (⟨D.map fun row => row.getD r 0, .le, R.getD r 0⟩ : LinCons))) ↔
      (c ∈ powerLinCons D ::
        ((List.range R.length).map fun r =>
          (⟨D.map fun row => row.getD r 0, .le, R.getD r 0⟩ : LinCons))) := by
    intro c
    rw [List.mem_append, List.mem_cons]
    constructor
    · rintro (hc | hc)
      · left
        rw [List.mem_map] at hc
        obtain ⟨r, -, rfl⟩ := hc
        rfl
      · right
        exact hc
    · rintro (rfl | hc)
      · left
        rw [List.mem_map]
        exact ⟨0, List.mem_range.mpr (by omega), rfl⟩
      · right
        exact hc
  refine ⟨rfl, rfl, rfl, ?_, ?_, feasible_iff_of_cons_mem rfl hmem,
    optimalValue_iff_of_feas (feasible_iff_of_cons_mem rfl hmem)
      (fun x => rfl) rfl,
    optimalPoint_iff_of_feas (feasible_iff_of_cons_mem rfl hmem)
      (fun x => rfl) rfl⟩
  · show (((List.range R.length).map fun _ => powerLinCons D) ++ _).count _ = _
    rw [List.count_append, hcount1, List.count_eq_zero.mpr hnotin]
    omega
  · show (powerLinCons D :: _).count _ = 1
    rw [List.count_cons_self, List.count_eq_zero.mpr hnotin]

/-- Witness for C9 at the notebook inputs: the power constraint appears
three times in the combined model and once in the comparison model; the
assignment the notebook reports is feasible for one model exactly when it
is feasible for the other, and the notebook's reported optimal cost 172100
is an optimal value of one model exactly when it is of the other. -/
theorem claim_C9_witness :
    armyCombinedModel.cons.count (powerLinCons DATA2) = 3 ∧
    armyOnceModel.cons.count (powerLinCons DATA2) = 1 ∧
    (armyCombinedModel.Feasible [1, 681, 0, 0, 0, 0, 0, 301, 0, 0] ↔
      armyOnceModel.Feasible [1, 681, 0, 0, 0, 0, 0, 301, 0, 0]) ∧
    (armyCombinedModel.IsOptimalValue 172100 ↔
      armyOnceModel.IsOptimalValue 172100) := by
  obtain ⟨-, -, -, h1, h2, h3, h4, -⟩ :=
    claim_C9 UNITS2 DATA2 RESOURCES2 armyCombinedModel armyOnceModel
      (by decide) (by decide) (by decide)
      solve_army_build_combined_data2 solve_army_build_once_data2
  exact ⟨h1, h2, h3 [1, 681, 0, 0, 0, 0, 0, 301, 0, 0], h4 172100⟩

/-- C8 (counterexample): `solve_army` does not fail fast on malformed
dimensions: with one capacity but a row of four columns (three resource
columns plus the value column), the model builds successfully and is
identical to the one built from the truncated table `[[1, 4]]` — the extra
columns are silently ignored, with no error of any kind. -/
theorem claim_C8_counterexample :
    solve_army_build ["a"] [[1, 2, 3, 4]] [5] =
      .ok { vars := [("a", 0, none)], cons := [⟨[1], .le, 5⟩],
            objective := [4], maximize := true } ∧
    solve_army_build ["a"] [[1, 2, 3, 4]] [5] =
      solve_army_build ["a"] [[1, 4]] [5] :=
  ⟨rfl, rfl⟩

/-- The condition under which every list access the generic `solve_army`
performs is in range: a row for every unit, and every used row long enough
for all the capacity columns and nonempty (so that `DATA[u][-1]`
exists). -/
def armyDimsOk (UNITS : List String) (DATA : List (List Int))
    (RESOURCES : List Int) : Prop :=
  UNITS.length ≤ DATA.length ∧
  ∀ u, u < UNITS.length →
    RESOURCES.length ≤ (DATA.getD u []).length ∧ DATA.getD u [] ≠ []

instance (U : List String) (D : List (List Int)) (R : List Int) :
    Decidable (armyDimsOk U D R) := by
  unfold armyDimsOk
  infer_instance

theorem pyGet_natCast_lt {α : Type} (l : List α) (i : Nat) {a : α}
    (h : pyGet l (i : Int) = .ok a) : i < l.length := by
  by_contra hge
  rw [pyGet_natCast_err l i (by omega)] at h
  cases h

theorem pyGet_neg_one_ne_nil {α : Type} (l : List α) {a : α}
    (h : pyGet l (-1) = .ok a) : l ≠ [] := by
  rintro rfl
  have hempty : pyGet ([] : List α) (-1) = .error indexErrorMsg := rfl
  rw [hempty] at h
  cases h

/-- Every failure of the generic builder carries the `IndexError`
message. -/
theorem onlyIndexErr_solve_army_build (U : List String) (D : List (List Int))
    (R : List Int) : OnlyIndexErr (solve_army_build U D R) := by
  unfold solve_army_build
  refine onlyIndexErr_exBind ?_ fun cons => ?_
  · refine onlyIndexErr_mapE fun r _ => ?_
    refine onlyIndexErr_exBind ?_ fun coeffs => onlyIndexErr_ok _
    refine onlyIndexErr_mapE fun u _ => ?_
    exact onlyIndexErr_exBind (onlyIndexErr_pyGet _ _)
      fun rw0 => onlyIndexErr_pyGet _ _
  · refine onlyIndexErr_exBind ?_ fun obj => onlyIndexErr_ok _
    refine onlyIndexErr_mapE fun u _ => ?_
    exact onlyIndexErr_exBind (onlyIndexErr_pyGet _ _)
      fun rw0 => onlyIndexErr_pyGet _ _

/-- If the generic builder succeeds, every access it performed was in
range. -/
theorem solve_army_build_ok_dims {U : List String} {D : List (List Int)}
    {R : List Int} {m : MPModel} (hm : solve_army_build U D R = .ok m) :
    armyDimsOk U D R := by
  unfold solve_army_build at hm
  obtain ⟨cons, hcons, hm2⟩ := exBind_eq_ok hm
  obtain ⟨obj, hobj, -⟩ := exBind_eq_ok hm2
  have hrowinfo : ∀ u, u < U.length → u < D.length ∧ D.getD u [] ≠ [] := by
    intro u hu
    have humem : ((u : Nat) : Int) ∈
        (List.range U.length).map (fun n : Nat => (n : Int)) := by
      rw [List.mem_map]
      exact ⟨u, List.mem_range.mpr hu, rfl⟩
    obtain ⟨b, hb⟩ := mapE_ok_mem _ hobj _ humem
    obtain ⟨row, hrowu, hneg1⟩ := exBind_eq_ok hb
    have hud : u < D.length := pyGet_natCast_lt D u hrowu
    rw [pyGet_natCast D u [] hud] at hrowu
    injection hrowu with hrowu
    refine ⟨hud, ?_⟩
    rw [hrowu]
    exact pyGet_neg_one_ne_nil row hneg1
  constructor
  · by_contra hlt
    push_neg at hlt
    exact absurd (hrowinfo D.length (by omega)).1 (by omega)
  · intro u hu
    refine ⟨?_, (hrowinfo u hu).2⟩
    rcases Nat.eq_zero_or_pos R.length with hR0 | hRpos
    · omega
    · have hrmem : (((R.length - 1 : Nat)) : Int) ∈
          (List.range R.length).map (fun n : Nat => (n : Int)) := by
        rw [List.mem_map]
        exact ⟨R.length - 1, List.mem_range.mpr (by omega), rfl⟩
      obtain ⟨cns, hcns⟩ := mapE_ok_mem _ hcons _ hrmem
      obtain ⟨coeffs, hcoeffs, -⟩ := exBind_eq_ok hcns
      have humem : ((u : Nat) : Int) ∈
          (List.range U.length).map (fun n : Nat => (n : Int)) := by
        rw [List.mem_map]
        exact ⟨u, List.mem_range.mpr hu, rfl⟩
      obtain ⟨val, hval⟩ := mapE_ok_mem _ hcoeffs _ humem
      obtain ⟨row2, hrow2, hval2⟩ := exBind_eq_ok hval
      rw [pyGet_natCast D u [] (hrowinfo u hu).1] at hrow2
      injection hrow2 with hrow2
      have hlt := pyGet_natCast_lt row2 (R.length - 1) hval2
      rw [← hrow2] at hlt
      omega

/-- If every access is in range, the generic builder succeeds. -/
theorem solve_army_build_isOk (U : List String) (D : List (List Int))
    (R : List Int) (h : armyDimsOk U D R) :
    ∃ m, solve_army_build U D R = .ok m := by
  obtain ⟨hle, hrow⟩ := h
  have hcons : mapE (fun r =>
      exBind (mapE (fun u => exBind (pyGet D u) fun row => pyGet row r)
        ((List.range U.length).map (fun n : Nat => (n : Int)))) fun coeffs =>
      .ok ⟨coeffs, .le, R.getD r.toNat 0⟩)
      ((List.range R.length).map (fun n : Nat => (n : Int)))
      = .ok ((List.range R.length).map fun r =>
          (⟨(List.range U.length).map fun u => (D.getD u []).getD r 0, .le,
            R.getD r 0⟩ : LinCons)) := by
    apply mapE_range_cast
    intro r hr
    have hinner : mapE
        (fun u => exBind (pyGet D u) fun row => pyGet row ((r : Nat) : Int))
        ((List.range U.length).map (fun n : Nat => (n : Int)))
        = .ok ((List.range U.length).map fun u => (D.getD u []).getD r 0) := by
      apply mapE_range_cast
      intro u hu
      rw [pyGet_natCast D u [] (by omega), exBind_ok]
      refine pyGet_natCast _ r 0 ?_
      have h1 := (hrow u hu).1
      omega
    rw [hinner, exBind_ok]
    rfl
  have hobj : mapE (fun u => exBind (pyGet D u) fun row => pyGet row (-1))
      ((List.range U.length).map (fun n : Nat => (n : Int)))
      = .ok ((List.range U.length).map fun u => (D.getD u []).getLastD 0) := by
    apply mapE_range_cast
    intro u hu
    rw [pyGet_natCast D u [] (by omega), exBind_ok]
    exact pyGet_neg_one _ 0 (hrow u hu).2
  unfold solve_army_build
  rw [hcons, exBind_ok, hobj, exBind_ok]
  exact ⟨_, rfl⟩

/-- C8 (amended): `solve_army` performs no dimension validation and never
reports a descriptive dimension error.  When the table has one row per
unit and every row has a column per capacity plus at least one more, any
extra columns are silently ignored: the model equals the one built from
each row truncated to its used columns (the first `len(RESOURCES)` columns
and the trailing one).  The build succeeds exactly when there is a row for
every unit and every used row has at least `len(RESOURCES)` columns and is
nonempty (so `DATA[u][-1]` exists); in every other case — a used row
shorter than the capacities vector, a missing row, or an empty used row —
it raises a generic `IndexError` (`list index out of range`). -/
theorem claim_C8 :
    (∀ (U : List String) (D : List (List Int)) (R : List Int),
      D.length = U.length → (∀ row ∈ D, R.length + 1 ≤ row.length) →
      solve_army_build U D R =
        solve_army_build U
          (D.map fun row => row.take R.length ++ [row.getLastD 0]) R) ∧
    (∀ (U : List String) (D : List (List Int)) (R : List Int),
      (∃ m, solve_army_build U D R = .ok m) ↔ armyDimsOk U D R) ∧
    (∀ (U : List String) (D : List (List Int)) (R : List Int),
      ¬ armyDimsOk U D R → solve_army_build U D R = .error indexErrorMsg) := by
  refine ⟨?_, ?_, ?_⟩
  · intro U D R hd hrow
    rw [solve_army_build_eq U D R hd
      (fun row hr => by have := hrow row hr; omega)]
    rw [solve_army_build_eq U
      (D.map fun row => row.take R.length ++ [row.getLastD 0]) R
      (by rw [List.length_map]; exact hd)
      (by
        intro row hr
        rw [List.mem_map] at hr
        obtain ⟨row0, hr0, rfl⟩ := hr
        have := hrow row0 hr0
        rw [List.length_append, List.length_take]
        simp only [List.length_cons, List.length_nil]
        omega)]
    have hcol : ∀ r : Nat, r < R.length → ∀ row ∈ D,
        (row.take R.length ++ [row.getLastD 0]).getD r 0 = row.getD r 0 := by
      intro r hr row hrw
      have hlong := hrow row hrw
      rw [List.getD_append _ _ _ _ (by rw [List.length_take]; omega)]
      rw [List.getD_eq_get _ _ (by rw [List.length_take]; omega),
        List.getD_eq_get _ _ (by omega : r < row.length)]
      simp [List.get_take]
    have hlast : ∀ row ∈ D,
        (row.take R.length ++ [row.getLastD 0]).getLastD 0 = row.getLastD 0 :=
      fun row _ => List.getLastD_concat _ _ _
    congr 1
    simp only [MPModel.mk.injEq]
    refine ⟨trivial, ?_, ?_, trivial⟩
    · refine List.map_eq_map_iff.mpr ?_
      intro r hrr
      rw [List.mem_range] at hrr
      simp only [LinCons.mk.injEq]
      refine ⟨?_, trivial, trivial⟩
      rw [List.map_map]
      refine List.map_eq_map_iff.mpr ?_
      intro row hrw
      exact (hcol r hrr row hrw).symm
    · rw [List.map_map]
      refine List.map_eq_map_iff.mpr ?_
      intro row hrw
      exact (hlast row hrw).symm
  · intro U D R
    constructor
    · rintro ⟨m, hm⟩
      exact solve_army_build_ok_dims hm
    · exact solve_army_build_isOk U D R
  · intro U D R hbad
    refine eq_indexErr_of_onlyIndexErr (onlyIndexErr_solve_army_build U D R) ?_
    intro m hm
    exact hbad (solve_army_build_ok_dims hm)

/-- Witness for C8 at concrete malformed inputs: silent truncation when the
row has extra columns; a generic `IndexError` for a row shorter than the
capacities, for an empty row with no capacities at all, and for a missing
row. -/
theorem claim_C8_witness :
    solve_army_build ["a"] [[1, 2, 3, 4]] [5] =
      solve_army_build ["a"] [[1, 4]] [5] ∧
    solve_army_build ["a"] [[1]] [5, 6] = .error indexErrorMsg ∧
    solve_army_build ["a"] [[]] [] = .error indexErrorMsg ∧
    solve_army_build ["a", "b"] [[1, 2]] [5] = .error indexErrorMsg := by
  refine ⟨?_, ?_, ?_, ?_⟩
  · have h := claim_C8.1 ["a"] [[1, 2, 3, 4]] [5] (by decide) (by decide)
    simpa using h
  · exact claim_C8.2.2 ["a"] [[1]] [5, 6] (by decide)
  · exact claim_C8.2.2 ["a"] [[]] [] (by decide)
  · exact claim_C8.2.2 ["a", "b"] [[1, 2]] [5] (by decide)

end Blog
